import Mathlib

/-!
Verification of the transcript anonymizer (src/app.py): the
detection-filtering, span-alignment and re-serialization pipeline.

Python strings are modelled as `List Char`; machine-level details that do
not matter here (pandas dtypes, Excel encoding) are abstracted to
`Option (List Char)` cells.  All definitions are translated from the
source file except where a doc comment says `Modelled from the spec:`.
-/

namespace TranscriptAnonymizer

/-- A Python string, modelled as its list of characters. -/
abbrev Str := List Char

/-- Python slice `s[a:b]` (half-open, clamping, empty when `b ≤ a`). -/
def pySlice (s : Str) (a b : Nat) : Str := (s.take b).drop a

/-- One entity detection returned by the analyzer: `RecognizerResult`
with fields `entity_type`, `start`, `end`, `score`. -/
structure Detection where
  entity_type : Str
  start : Nat
  «end» : Nat
  score : ℚ
deriving DecidableEq

/-- `EXCLUDE_WORDS` (app.py lines 87-90). -/
def EXCLUDE_WORDS : List Str :=
  ["america", "united states", "us", "usa", "u.s.",
   "the united states", "the us", "the usa", "the u. s."].map String.toList

/-- `text[r.start:r.end].lower()` (app.py line 94). -/
def lowerSpan (text : Str) (r : Detection) : Str :=
  (pySlice text r.start r.«end»).map Char.toLower

/-- The post-detection filter loop (app.py lines 92-97): keep `r` unless
its lower-cased span is in `EXCLUDE_WORDS`. -/
def filterResults (text : Str) (rs : List Detection) : List Detection :=
  rs.filter (fun r => decide (lowerSpan text r ∉ EXCLUDE_WORDS))

/-- The uniform confidence threshold passed to `analyzer.analyze`
(app.py line 83 and line 185), the same for every entity type. -/
def SCORE_THRESHOLD : ℚ := 85 / 100

/-- A Python whitespace character (the set recognised by `str.strip`
and `str.isspace` for ASCII input). -/
def isSpaceChar (c : Char) : Bool :=
  c = ' ' ∨ c = '\t' ∨ c = '\n' ∨ c = '\r' ∨ c = '\x0b' ∨ c = '\x0c'

/-- Python `s.strip()`: drop leading and trailing whitespace. -/
def pyStrip (s : Str) : Str :=
  ((s.dropWhile isSpaceChar).reverse.dropWhile isSpaceChar).reverse

/-- The analyzed text for a tabular upload (app.py lines 71-74):
`"\n".join(df.loc[df[col].notna(), col])` — the newline-join of the
non-null cells, in row order.  A cell is `none` when the spreadsheet
cell is null (`NaN`); note that `some []` (an empty string) is NOT null
and is kept. -/
def joinedText (cells : List (Option Str)) : Str :=
  List.intercalate ['\n'] (cells.filterMap id)

/-- `df.index[df[col].notna()]` (app.py line 72): the positions of the
non-null cells, in increasing order. -/
def nonnullPositions : List (Option Str) → List Nat
  | [] => []
  | c :: cs =>
    let rest := (nonnullPositions cs).map (· + 1)
    if c.isSome then 0 :: rest else rest

/-- Python `s.split(sep)` for a one-character separator: every maximal
separator-free run, including empty runs; `"".split(sep) = [""]`. -/
def pySplit (sep : Char) : Str → List Str
  | [] => [[]]
  | c :: s =>
    if c = sep then [] :: pySplit sep s
    else
      match pySplit sep s with
      | [] => [[c]]
      | t :: ts => (c :: t) :: ts

/-- Sequential positional assignment: apply `col[i] := v` for each pair
`(i, v)` in order. -/
def setMany (col : List (Option Str)) (l : List (Nat × Option Str)) : List (Option Str) :=
  l.foldl (fun c pv => c.set pv.1 pv.2) col

/-- pandas `df.loc[positions, col] = vals`: errors (ValueError) unless
the value list has exactly as many entries as the row indexer, else
assigns positionally. -/
def locAssignCol (col : List (Option Str)) (positions : List Nat)
    (vals : List (Option Str)) : Except Unit (List (Option Str)) :=
  if vals.length = positions.length then
    Except.ok (setMany col (positions.zip vals))
  else Except.error ()

/-- The re-serialization step for a tabular upload (app.py lines
156-163): split the redacted blob on newlines, warn when the part count
differs from the non-null row count, initialise the new column to the
empty string everywhere, and loc-assign the first `len(nonnull)` parts
to the non-null positions.  The Bool is the warning flag; the `Except`
is the new column (`Except.error` models the pandas ValueError raised
when fewer parts than rows are assigned). -/
def buildRedactedColumn (cells : List (Option Str)) (redacted : Str) :
    Bool × Except Unit (List (Option Str)) :=
  let redacted_rows := pySplit '\n' redacted
  let positions := nonnullPositions cells
  (decide (redacted_rows.length ≠ positions.length),
    locAssignCol (List.replicate cells.length (some []))
      positions ((redacted_rows.take positions.length).map some))

/-- Reference description of the produced column: walk the cells, handing
the next split part to each non-null cell and the empty placeholder to
each null cell. -/
def rebuildRows : List (Option Str) → List Str → List (Option Str)
  | [], _ => []
  | none :: cs, parts => some [] :: rebuildRows cs parts
  | some _ :: cs, [] => some [] :: rebuildRows cs []
  | some _ :: cs, p :: parts => some p :: rebuildRows cs parts

/-- A data frame: ordered columns, each a name with its cells. -/
abbrev DataFrame := List (Str × List (Option Str))

/-- The cells of the column named `name` (empty if absent). -/
def colData (df : DataFrame) (name : Str) : List (Option Str) :=
  match df.find? (fun c => decide (c.1 = name)) with
  | some c => c.2
  | none => []

/-- pandas `df[name] = vals`: replace the column in place when the name
exists, else append a new column at the end. -/
def setCol (df : DataFrame) (name : Str) (vals : List (Option Str)) : DataFrame :=
  if name ∈ df.map Prod.fst then
    df.map (fun c => if c.1 = name then (c.1, vals) else c)
  else df ++ [(name, vals)]

/-- The whole tabular re-serialization (app.py lines 151-163):
`df_redacted = df.copy()`, build the `<col>_REDACTED` column from the
split redacted text, and store it. -/
def buildRedactedFrame (df : DataFrame) (name : Str) (redacted : Str) :
    Except Unit DataFrame :=
  match (buildRedactedColumn (colData df name) redacted).2 with
  | Except.ok col => Except.ok (setCol df (name ++ "_REDACTED".toList) col)
  | Except.error e => Except.error e

/-- Two non-null rows whose redacted blob splits into a single part. -/
def mismatchCells : List (Option Str) := [some ['a'], some ['b']]

/-- Concrete inputs exercising both mismatch branches. -/
def truncCells : List (Option Str) := [some ['a'], none, some ['b']]

def truncRedacted : Str := "x\ny\nz".toList

/-- One Label Studio span value (app.py lines 204-209). -/
structure LSValue where
  start : Nat
  «end» : Nat
  text : Str
  labels : List Str
deriving DecidableEq

/-- One Label Studio prediction record (app.py lines 200-211). -/
structure LSResult where
  from_name : Str
  to_name : Str
  type : Str
  value : LSValue
  score : Option ℚ
deriving DecidableEq

/-- `_presidio_to_ls_results` (app.py lines 179-212) applied to the raw
detections the analyzer returned for `text_segment`: the same exclusion
filter as the main loop, then one span-label record per survivor whose
`value.text` is the Python slice of the segment (the `try` around the
slice is dead code — slicing never raises). -/
def lsResultsOf (text_segment : Str) (seg_raw : List Detection) : List LSResult :=
  (filterResults text_segment seg_raw).map (fun rr =>
    { from_name := "pii".toList
      to_name := "text".toList
      type := "labels".toList
      value := { start := rr.start, «end» := rr.«end»,
                 text := pySlice text_segment rr.start rr.«end»,
                 labels := [rr.entity_type] }
      score := some rr.score })

/-- The texts of the Label Studio tasks built for a tabular upload
(app.py lines 216-234): one task per non-null row, except rows whose
text is empty or whitespace-only, which are skipped. -/
def lsTaskRows (cells : List (Option Str)) : List Str :=
  (cells.filterMap id).filter (fun s => !(s.isEmpty || (pyStrip s).isEmpty))

/-- Shift a detection's span left by `k` characters. -/
def shiftDet (k : Nat) (d : Detection) : Detection :=
  { d with start := d.start - k, «end» := d.«end» - k }

/-- Modelled from the spec: the external anonymizer (presidio
`AnonymizerEngine.anonymize` with the "replace" operator, invoked at
app.py lines 104-110 but not part of this repository).  Spec section 4.2:
replace each detection's span `[start, end)` with the replacement,
rebuilding the string by copying untouched gaps plus replacements
(strategy (a), detections taken in ascending span order). -/
def redact (repl : Str) : Str → List Detection → Str
  | text, [] => text
  | text, d :: rest =>
    text.take d.start ++ repl ++
      redact repl (text.drop d.«end») (rest.map (shiftDet d.«end»))
termination_by _ dets => dets.length
decreasing_by simp [List.length_map, Nat.lt_succ_self]

/-- Well-formed detector output over a text of length `n`: non-degenerate
in-bounds spans, in ascending non-overlapping order (the ordering the
spec attributes to the detector). -/
abbrev DetsOK (n : Nat) (dets : List Detection) : Prop :=
  (∀ d ∈ dets, d.start < d.«end» ∧ d.«end» ≤ n) ∧
  List.Pairwise (fun a b => a.«end» ≤ b.start) dets

/-- Character offset of each newline separator in the intercalation of
`segs` with a one-character separator. -/
def sepPositions : List Str → List Nat
  | [] => []
  | [_] => []
  | s :: tail => s.length :: (sepPositions tail).map (· + (s.length + 1))

/-- Python truthiness of the optional text (`None` and `""` are falsy). -/
def pyTruthy : Option Str → Bool
  | none => false
  | some s => !s.isEmpty

/-- Which branch of the app's top-level conditional runs. -/
inductive UIOutcome where
  | pipelineRun
  | selectEntitiesPrompt
  | idle
deriving DecidableEq

/-- The top-level dispatch (app.py lines 77 and 255-256) together with
the artifacts the pipeline branch produces: the redaction pipeline
(detector call included) runs only under `if text and selected_entities`;
under `elif text and not selected_entities` only an informational prompt
is shown and nothing is produced.  The detector is a function parameter
so that invoking-vs-not-invoking it is observable. -/
def appRun (detect : Str → List Detection) (repl : Str)
    (t : Option Str) (sel : List Str) : UIOutcome × Option (Str × List LSResult) :=
  if pyTruthy t && !sel.isEmpty then
    let txt := t.getD []
    (UIOutcome.pipelineRun,
      some (redact repl txt (filterResults txt (detect txt)), lsResultsOf txt (detect txt)))
  else if pyTruthy t && sel.isEmpty then
    (UIOutcome.selectEntitiesPrompt, none)
  else (UIOutcome.idle, none)

/-- A middle cell holding the empty string: non-empty in pandas terms
(`notna`), empty as a string. -/
def emptyCellEx : List (Option Str) := [some ['a'], some [], some ['b']]

/-- A one-column, two-row table for the C7 witness. -/
def okFrame : DataFrame := [("text".toList, [some "hi".toList, none])]

/-- An uploaded table that already carries a `text_REDACTED` column. -/
def collideFrame : DataFrame :=
  [("text".toList, [some ['x']]), ("text_REDACTED".toList, [some ['y']])]

/-- The frame the code produces from `collideFrame`. -/
def collideResult : DataFrame :=
  [("text".toList, [some ['x']]), ("text_REDACTED".toList, [some ['r']])]

def reScore (f : Detection → ℚ) (d : Detection) : Detection :=
  { d with score := f d }

/-- Concrete detections of the spec's confidence-floor test vector, over
the text "John Smith flew to Paris": PERSON "John" at 0.5,
PERSON "Smith" at 0.9, LOCATION "Paris" at 0.65. -/
def cfText : Str := "John Smith flew to Paris".toList

def cfDet1 : Detection := ⟨"PERSON".toList, 0, 4, 5 / 10⟩

def cfDet2 : Detection := ⟨"PERSON".toList, 5, 10, 9 / 10⟩

def cfDet3 : Detection := ⟨"LOCATION".toList, 19, 24, 65 / 100⟩

/-- Text and detection for the trimming counterexample: a LOCATION
detection spanning " usa" (with its leading space). -/
def trimText : Str := " usa!".toList

def trimDet : Detection := ⟨"LOCATION".toList, 0, 4, 9 / 10⟩

/-- The claim's own exclusion example: "I live in the United States."
with a LOCATION detection spanning "the United States" (offsets 10-27). -/
def usText : Str := "I live in the United States.".toList

def usDet : Detection := ⟨"LOCATION".toList, 10, 27, 9 / 10⟩

/-- Detection for the offset-integrity witness: PERSON "live". -/
def oiDet : Detection := ⟨"PERSON".toList, 2, 6, 1⟩

/-- Rows for the C10 witness: a word row and a whitespace-only row. -/
def wsCells : List (Option Str) := [some ['a'], some [' ']]

/-- The end-to-end tabular example: three rows, the middle one null. -/
def rtCells : List (Option Str) :=
  [some ("Alice called.".toList), none, some ("Bob went to Rome.".toList)]

def rtRepl : Str := "**REDACTED**".toList

/-- PERSON "Alice" and PERSON "Bob" in the joined text
"Alice called.\nBob went to Rome.". -/
def rtDets : List Detection :=
  [⟨"PERSON".toList, 0, 5, 1⟩, ⟨"PERSON".toList, 14, 17, 1⟩]

/-- If `sep` does not occur in `a`, splitting leaves `a` whole. -/
theorem pySplit_no_sep (sep : Char) (a : Str) (h : sep ∉ a) :
    pySplit sep a = [a] := by
  induction a with
  | nil => rfl
  | cons c s ih =>
    have hc : ¬c = sep := fun hc => h (hc ▸ List.mem_cons_self c s)
    have hs : sep ∉ s := fun hs => h (List.mem_cons_of_mem c hs)
    simp only [pySplit, if_neg hc, ih hs]

/-- Splitting `a ++ sep :: b` when `sep ∉ a` peels off `a`. -/
theorem pySplit_append_sep (sep : Char) (a b : Str) (h : sep ∉ a) :
    pySplit sep (a ++ sep :: b) = a :: pySplit sep b := by
  induction a with
  | nil => simp [pySplit]
  | cons c s ih =>
    have hc : ¬c = sep := fun hc => h (hc ▸ List.mem_cons_self c s)
    have hs : sep ∉ s := fun hs => h (List.mem_cons_of_mem c hs)
    simp only [List.cons_append, pySplit, if_neg hc, List.append_eq]
    rw [ih hs]

/-- Splitting the `sep`-intercalation of separator-free segments returns
exactly the segments. -/
theorem pySplit_intercalate (sep : Char) (segs : List Str) (hne : segs ≠ [])
    (h : ∀ s ∈ segs, sep ∉ s) :
    pySplit sep (List.intercalate [sep] segs) = segs := by
  induction segs with
  | nil => exact absurd rfl hne
  | cons s rest ih =>
    cases rest with
    | nil =>
      have hone : List.intercalate [sep] [s] = s := by
        simp [List.intercalate]
      rw [hone]
      exact pySplit_no_sep sep s (h s (List.mem_cons_self s []))
    | cons s2 rest2 =>
      have hjoin : List.intercalate [sep] (s :: s2 :: rest2) =
          s ++ sep :: List.intercalate [sep] (s2 :: rest2) := by
        simp [List.intercalate, List.intersperse]
      rw [hjoin, pySplit_append_sep sep _ _ (h s (List.mem_cons_self s _))]
      rw [ih (by simp) (fun t ht => h t (List.mem_cons_of_mem s ht))]

/-- There are as many non-null positions as non-null cells. -/
theorem nonnullPositions_length (cells : List (Option Str)) :
    (nonnullPositions cells).length = (cells.filterMap id).length := by
  induction cells with
  | nil => rfl
  | cons c cs ih =>
    cases c with
    | none => simpa [nonnullPositions] using ih
    | some v => simpa [nonnullPositions] using ih

/-- Shifting every assigned position by one skips a prepended cell. -/
theorem setMany_shift (d : Option Str) (col : List (Option Str))
    (l : List (Nat × Option Str)) :
    setMany (d :: col) (l.map (Prod.map (· + 1) id)) = d :: setMany col l := by
  induction l generalizing d col with
  | nil => rfl
  | cons pv rest ih =>
    simp only [List.map_cons, setMany, List.foldl_cons, Prod.map, id, List.set]
    exact ih d (col.set pv.1 pv.2)

/-- Correctness of the loc-assignment against the reference description:
with exactly one part per non-null cell, assigning the parts at the
non-null positions over an all-empty column is `rebuildRows`. -/
theorem setMany_rebuild (cells : List (Option Str)) (parts : List Str)
    (h : parts.length = (cells.filterMap id).length) :
    setMany (List.replicate cells.length (some []))
        ((nonnullPositions cells).zip (parts.map some)) = rebuildRows cells parts := by
  induction cells generalizing parts with
  | nil => rfl
  | cons c cs ih =>
    cases c with
    | none =>
      have hpos : nonnullPositions (none :: cs) = (nonnullPositions cs).map (· + 1) := by
        simp [nonnullPositions]
      have hh : parts.length = (cs.filterMap id).length := by
        simpa [List.filterMap] using h
      calc setMany (List.replicate (none :: cs).length (some []))
            ((nonnullPositions (none :: cs)).zip (parts.map some))
          = setMany (some [] :: List.replicate cs.length (some []))
            (((nonnullPositions cs).zip (parts.map some)).map (Prod.map (· + 1) id)) := by
            rw [hpos, List.zip_map_left]
            rfl
        _ = some [] :: setMany (List.replicate cs.length (some []))
            ((nonnullPositions cs).zip (parts.map some)) := setMany_shift _ _ _
        _ = some [] :: rebuildRows cs parts := by rw [ih parts hh]
        _ = rebuildRows (none :: cs) parts := rfl
    | some v =>
      cases parts with
      | nil =>
        exfalso
        simp [List.filterMap] at h
      | cons p parts' =>
        have hpos : nonnullPositions (some v :: cs) =
            0 :: (nonnullPositions cs).map (· + 1) := by
          simp [nonnullPositions]
        have hh : parts'.length = (cs.filterMap id).length := by
          simpa [List.filterMap] using h
        calc setMany (List.replicate (some v :: cs).length (some []))
              ((nonnullPositions (some v :: cs)).zip ((p :: parts').map some))
            = setMany (some p :: List.replicate cs.length (some []))
              (((nonnullPositions cs).zip (parts'.map some)).map (Prod.map (· + 1) id)) := by
              rw [hpos, List.map_cons, List.zip_cons_cons, List.zip_map_left]
              rfl
          _ = some p :: setMany (List.replicate cs.length (some []))
              ((nonnullPositions cs).zip (parts'.map some)) := setMany_shift _ _ _
          _ = some p :: rebuildRows cs parts' := by rw [ih parts' hh]
          _ = rebuildRows (some v :: cs) (p :: parts') := rfl

/-- With at least as many split parts as non-null rows, the column
assignment succeeds and produces the truncated reference column. -/
theorem buildRedactedColumn_ok (cells : List (Option Str)) (redacted : Str)
    (h : (nonnullPositions cells).length ≤ (pySplit '\n' redacted).length) :
    (buildRedactedColumn cells redacted).2 = Except.ok
      (rebuildRows cells ((pySplit '\n' redacted).take (nonnullPositions cells).length)) := by
  have hlen : (((pySplit '\n' redacted).take (nonnullPositions cells).length).map some).length
      = (nonnullPositions cells).length := by
    simp [List.length_take, Nat.min_eq_left h]
  simp only [buildRedactedColumn, locAssignCol, if_pos hlen]
  rw [setMany_rebuild]
  rw [List.length_take, Nat.min_eq_left h, nonnullPositions_length]

/-- With fewer split parts than non-null rows, the column assignment
errors (the pandas ValueError). -/
theorem buildRedactedColumn_err (cells : List (Option Str)) (redacted : Str)
    (h : (pySplit '\n' redacted).length < (nonnullPositions cells).length) :
    (buildRedactedColumn cells redacted).2 = Except.error () := by
  have hlen : ¬((((pySplit '\n' redacted).take (nonnullPositions cells).length).map some).length
      = (nonnullPositions cells).length) := by
    simp only [List.length_map, List.length_take]
    omega
  simp only [buildRedactedColumn, locAssignCol, if_neg hlen]

/-- C1 (amended): on a row-alignment mismatch the warning flag is raised
either way, but the outcomes differ: when the split yields at least as
many parts as non-null rows the extra parts are truncated and the
assignment proceeds; when it yields fewer parts the positional
assignment fails with a length-mismatch error (pandas ValueError) — no
padding happens. -/
theorem split_assign_mismatch_behavior (cells : List (Option Str)) (redacted : Str) :
    ((buildRedactedColumn cells redacted).1 = true ↔
      (pySplit '\n' redacted).length ≠ (nonnullPositions cells).length) ∧
    ((nonnullPositions cells).length ≤ (pySplit '\n' redacted).length →
      (buildRedactedColumn cells redacted).2 = Except.ok
        (rebuildRows cells ((pySplit '\n' redacted).take (nonnullPositions cells).length))) ∧
    ((pySplit '\n' redacted).length < (nonnullPositions cells).length →
      (buildRedactedColumn cells redacted).2 = Except.error ()) :=
  ⟨by simp [buildRedactedColumn],
   buildRedactedColumn_ok cells redacted,
   buildRedactedColumn_err cells redacted⟩

/-- C1 counterexample: with two non-null rows and a redacted text that
splits into just one part, the code warns AND the positional assignment
errors out (the pandas length-mismatch ValueError): redaction does not
proceed by padding. -/
theorem split_assign_short_raises :
    buildRedactedColumn mismatchCells ['X'] = (true, Except.error ()) := by
  rfl

/-- C1 witness: the amended theorem applied at concrete inputs — three
parts over two non-null rows truncates and succeeds, one part over two
non-null rows errors. -/
theorem split_assign_mismatch_behavior_witness :
    (buildRedactedColumn truncCells truncRedacted).2 = Except.ok
      (rebuildRows truncCells
        ((pySplit '\n' truncRedacted).take (nonnullPositions truncCells).length)) ∧
    (buildRedactedColumn mismatchCells ['Y']).2 = Except.error () :=
  ⟨(split_assign_mismatch_behavior truncCells truncRedacted).2.1 (by decide),
   (split_assign_mismatch_behavior mismatchCells ['Y']).2.2 (by decide)⟩

/-- C3 counterexample: with an empty-string (non-null) cell, the joined
text is not the join of the non-empty cell values, and the number of
joined segments differs from the number of non-empty rows — empty-string
cells are NOT filtered out before joining, only null cells are. -/
theorem join_counterexample_empty_cell :
    joinedText emptyCellEx ≠
      List.intercalate ['\n'] ((emptyCellEx.filterMap id).filter (fun v => !v.isEmpty)) ∧
    (pySplit '\n' (joinedText emptyCellEx)).length ≠
      ((emptyCellEx.filterMap id).filter (fun v => !v.isEmpty)).length := by
  decide

/-- C3 (amended): the analyzed text is the newline-join of the NON-NULL
cell values in row order; when no cell embeds a newline the joined
segments are exactly the non-null cell values, so their count equals the
non-null (not the non-empty) row count. -/
theorem join_segments_nonnull (cells : List (Option Str))
    (hsep : ∀ v ∈ cells.filterMap id, '\n' ∉ v) (hne : cells.filterMap id ≠ []) :
    pySplit '\n' (joinedText cells) = cells.filterMap id ∧
    (pySplit '\n' (joinedText cells)).length = (nonnullPositions cells).length := by
  have h : pySplit '\n' (joinedText cells) = cells.filterMap id :=
    pySplit_intercalate '\n' (cells.filterMap id) hne hsep
  refine ⟨h, ?_⟩
  rw [h, nonnullPositions_length]

/-- C3 witness: the amended theorem at a concrete table. -/
theorem join_segments_nonnull_witness :
    pySplit '\n' (joinedText truncCells) = truncCells.filterMap id ∧
    (pySplit '\n' (joinedText truncCells)).length = (nonnullPositions truncCells).length :=
  join_segments_nonnull truncCells (by decide) (by decide)

/-- The rebuilt column always has one entry per input row. -/
theorem rebuildRows_length (cells : List (Option Str)) (parts : List Str) :
    (rebuildRows cells parts).length = cells.length := by
  induction cells generalizing parts with
  | nil => rfl
  | cons c cs ih =>
    cases c with
    | none => simpa [rebuildRows] using ih parts
    | some v =>
      cases parts with
      | nil => simpa [rebuildRows] using ih []
      | cons p ps => simpa [rebuildRows] using ih ps

/-- Pointwise description of the rebuilt column: null cells receive the
empty placeholder and the j-th non-null cell receives the j-th part,
transported along any relation the parts bear to the non-null values. -/
theorem rebuildRows_rel (R : Str → Str → Prop) (cells : List (Option Str))
    (parts : List Str) (h : List.Forall₂ R (cells.filterMap id) parts) :
    List.Forall₂ (fun c o => (c = none → o = some []) ∧
        ∀ v, c = some v → ∃ p, o = some p ∧ R v p)
      cells (rebuildRows cells parts) := by
  induction cells generalizing parts with
  | nil => exact List.Forall₂.nil
  | cons c cs ih =>
    cases c with
    | none =>
      have hh : List.Forall₂ R (cs.filterMap id) parts := by
        simpa [List.filterMap] using h
      exact List.Forall₂.cons ⟨fun _ => rfl, fun v hv => Option.noConfusion hv⟩ (ih parts hh)
    | some v =>
      have h' : List.Forall₂ R (v :: cs.filterMap id) parts := by
        simpa [List.filterMap] using h
      cases h' with
      | cons hR hrest =>
        refine List.Forall₂.cons ⟨fun hv => Option.noConfusion hv, ?_⟩ (ih _ hrest)
        intro w hw
        refine ⟨_, rfl, ?_⟩
        cases hw
        exact hR

/-- Equal-length lists are pointwise related by the trivial relation. -/
theorem forall2_trivial {α β : Type} (l : List α) (l' : List β)
    (h : l.length = l'.length) : List.Forall₂ (fun _ _ => True) l l' := by
  induction l generalizing l' with
  | nil =>
    cases l' with
    | nil => exact List.Forall₂.nil
    | cons b bs => cases h
  | cons a as ih =>
    cases l' with
    | nil => cases h
    | cons b bs =>
      exact List.Forall₂.cons trivial (ih bs (by simpa using h))

/-- Adding a genuinely fresh column appends it. -/
theorem setCol_fresh (df : DataFrame) (name : Str) (vals : List (Option Str))
    (h : name ∉ df.map Prod.fst) : setCol df name vals = df ++ [(name, vals)] := by
  simp only [setCol, if_neg h]

/-- C7 (amended): provided the input table has no column already named
`<col>_REDACTED` and the split does not come up short, the redacted
frame is the input frame with exactly one appended column named
`<col>_REDACTED` (all original columns and their order untouched), of
the same row count, holding the empty string at originally-null rows and
a split-off redacted part at each non-null row. -/
theorem redacted_frame_shape (df : DataFrame) (name : Str) (redacted : Str)
    (hfresh : (name ++ "_REDACTED".toList) ∉ df.map Prod.fst)
    (hlen : (nonnullPositions (colData df name)).length ≤ (pySplit '\n' redacted).length) :
    buildRedactedFrame df name redacted = Except.ok
      (df ++ [(name ++ "_REDACTED".toList,
        rebuildRows (colData df name)
          ((pySplit '\n' redacted).take (nonnullPositions (colData df name)).length))]) ∧
    (rebuildRows (colData df name)
        ((pySplit '\n' redacted).take (nonnullPositions (colData df name)).length)).length
      = (colData df name).length ∧
    List.Forall₂ (fun c o => (c = none → o = some []) ∧ ∀ v, c = some v → ∃ p, o = some p)
      (colData df name)
      (rebuildRows (colData df name)
        ((pySplit '\n' redacted).take (nonnullPositions (colData df name)).length)) := by
  refine ⟨?_, rebuildRows_length _ _, ?_⟩
  · rw [buildRedactedFrame, buildRedactedColumn_ok _ _ hlen]
    exact congrArg Except.ok (setCol_fresh df _ _ hfresh)
  · have hlens : ((colData df name).filterMap id).length =
        ((pySplit '\n' redacted).take (nonnullPositions (colData df name)).length).length := by
      rw [List.length_take, Nat.min_eq_left hlen, nonnullPositions_length]
    have h2 := rebuildRows_rel (fun _ _ => True) (colData df name)
      ((pySplit '\n' redacted).take (nonnullPositions (colData df name)).length)
      (forall2_trivial _ _ hlens)
    exact h2.imp (fun c o hco => ⟨hco.1, fun v hv => (hco.2 v hv).imp (fun p hp => hp.1)⟩)

/-- C7 witness: the amended theorem at a concrete frame. -/
theorem redacted_frame_shape_witness :
    buildRedactedFrame okFrame ("text".toList) ("RED".toList) = Except.ok
      (okFrame ++ [("text".toList ++ "_REDACTED".toList,
        rebuildRows (colData okFrame ("text".toList))
          ((pySplit '\n' ("RED".toList)).take
            (nonnullPositions (colData okFrame ("text".toList))).length))]) ∧
    (rebuildRows (colData okFrame ("text".toList))
        ((pySplit '\n' ("RED".toList)).take
          (nonnullPositions (colData okFrame ("text".toList))).length)).length
      = (colData okFrame ("text".toList)).length ∧
    List.Forall₂ (fun c o => (c = none → o = some []) ∧ ∀ v, c = some v → ∃ p, o = some p)
      (colData okFrame ("text".toList))
      (rebuildRows (colData okFrame ("text".toList))
        ((pySplit '\n' ("RED".toList)).take
          (nonnullPositions (colData okFrame ("text".toList))).length)) :=
  redacted_frame_shape okFrame ("text".toList) ("RED".toList) (by decide) (by decide)

/-- C7 counterexample: when the input already has a column named
`text_REDACTED`, the code overwrites it in place: the output has the
same column names (no new column is added) and an original column's
values are changed, contradicting the claimed frame preservation. -/
theorem redacted_frame_collision_counterexample :
    buildRedactedFrame collideFrame ("text".toList) ['r'] = Except.ok collideResult ∧
    collideResult.map Prod.fst = collideFrame.map Prod.fst ∧
    colData collideResult ("text_REDACTED".toList) ≠
      colData collideFrame ("text_REDACTED".toList) := by
  refine ⟨by rfl, by rfl, by decide⟩

/-- C2 counterexample: on the spec's test vector the code's filter keeps
all three detections; its output is not `[{PERSON,0.9},{LOCATION,0.65}]`,
so no per-type confidence floor is enforced by the filter. -/
theorem filter_floors_counterexample :
    filterResults cfText [cfDet1, cfDet2, cfDet3] = [cfDet1, cfDet2, cfDet3] ∧
    filterResults cfText [cfDet1, cfDet2, cfDet3] ≠ [cfDet2, cfDet3] := by
  have hkeep : filterResults cfText [cfDet1, cfDet2, cfDet3] = [cfDet1, cfDet2, cfDet3] := by
    simp only [filterResults, List.filter_cons, List.filter_nil]
    have h1 : (decide (lowerSpan cfText cfDet1 ∉ EXCLUDE_WORDS)) = true := by decide
    have h2 : (decide (lowerSpan cfText cfDet2 ∉ EXCLUDE_WORDS)) = true := by decide
    have h3 : (decide (lowerSpan cfText cfDet3 ∉ EXCLUDE_WORDS)) = true := by decide
    rw [h1, h2, h3]
    simp
  refine ⟨hkeep, ?_⟩
  rw [hkeep]
  intro h
  have := congrArg List.length h
  simp at this

/-- C2 (amended): the code's filter enforces no confidence floors at all:
its output is invariant under arbitrary re-scoring of the detections, and
score-based dropping happens only through the single uniform threshold
0.85 handed to the detector for every entity type. -/
theorem filter_ignores_scores :
    (∀ (f : Detection → ℚ) (text : Str) (D : List Detection),
        filterResults text (D.map (reScore f)) =
          (filterResults text D).map (reScore f)) ∧
    SCORE_THRESHOLD = 85 / 100 := by
  refine ⟨?_, rfl⟩
  intro f text D
  induction D with
  | nil => rfl
  | cons d rest ih =>
    simp only [List.map_cons, filterResults, List.filter_cons] at *
    have hpred : (decide (lowerSpan text (reScore f d) ∉ EXCLUDE_WORDS)) =
        (decide (lowerSpan text d ∉ EXCLUDE_WORDS)) := rfl
    rw [hpred]
    by_cases h : (decide (lowerSpan text d ∉ EXCLUDE_WORDS)) = true
    · rw [h]; simp only [if_true, cond_true, List.map_cons]
      rw [ih]
    · have h' : (decide (lowerSpan text d ∉ EXCLUDE_WORDS)) = false := by
        cases hb : (decide (lowerSpan text d ∉ EXCLUDE_WORDS)) with
        | false => rfl
        | true => exact absurd hb h
      rw [h']
      exact ih

/-- C4 counterexample: the span " usa" trimmed and lower-cased is in the
exclusion set, yet the code keeps the detection — the filter matches the
lower-cased span with NO whitespace trimming, so the claimed
drop-iff-trimmed-match criterion is false. -/
theorem exclusion_trim_counterexample :
    filterResults trimText [trimDet] = [trimDet] ∧
    pyStrip (lowerSpan trimText trimDet) ∈ EXCLUDE_WORDS := by
  constructor
  · simp only [filterResults, List.filter_cons, List.filter_nil]
    have h1 : (decide (lowerSpan trimText trimDet ∉ EXCLUDE_WORDS)) = true := by decide
    rw [h1]
    simp
  · decide

/-- C4 (amended): a detection survives the filter iff it was in the input
and its lower-cased (untrimmed) span is not in the exclusion set; in
particular the LOCATION detection spanning "the United States" is
excluded. -/
theorem exclusion_lowercase_exact :
    (∀ (text : Str) (D : List Detection) (d : Detection),
        d ∈ filterResults text D ↔ d ∈ D ∧ lowerSpan text d ∉ EXCLUDE_WORDS) ∧
    filterResults usText [usDet] = [] := by
  constructor
  · intro text D d
    simp only [filterResults, List.mem_filter, decide_eq_true_eq]
  · simp only [filterResults, List.filter_cons, List.filter_nil]
    have h1 : (decide (lowerSpan usText usDet ∉ EXCLUDE_WORDS)) = false := by decide
    rw [h1]
    simp

/-- C6: for well-formed detector output (the Detection data-model
invariant), every detection surviving the filter keeps a non-degenerate
in-bounds span, and every exported Label Studio record carries exactly
the Python slice `text[start:end]` as its `value.text`, with the same
in-bounds offsets. -/
theorem offset_integrity (text : Str) (D : List Detection)
    (hWF : ∀ d ∈ D, d.start < d.«end» ∧ d.«end» ≤ text.length) :
    (∀ d ∈ filterResults text D, d.start < d.«end» ∧ d.«end» ≤ text.length) ∧
    (∀ r ∈ lsResultsOf text D,
      r.value.text = pySlice text r.value.start r.value.«end» ∧
      r.value.start < r.value.«end» ∧ r.value.«end» ≤ text.length) := by
  constructor
  · intro d hd
    exact hWF d (List.mem_of_mem_filter hd)
  · intro r hr
    rw [lsResultsOf] at hr
    obtain ⟨rr, hrr, rfl⟩ := List.mem_map.mp hr
    have hb := hWF rr (List.mem_of_mem_filter hrr)
    exact ⟨rfl, hb.1, hb.2⟩

/-- C6 witness: offset integrity at a concrete text and detection. -/
theorem offset_integrity_witness :
    (∀ d ∈ filterResults usText [oiDet],
      d.start < d.«end» ∧ d.«end» ≤ usText.length) ∧
    (∀ r ∈ lsResultsOf usText [oiDet],
      r.value.text = pySlice usText r.value.start r.value.«end» ∧
      r.value.start < r.value.«end» ∧ r.value.«end» ≤ usText.length) :=
  offset_integrity usText [oiDet] (by decide)

/-- C9: with no entity types selected, the top-level dispatch is
independent of the detector (the detector is never invoked), produces no
artifact, and — whenever text is present — shows the informational
prompt instead. -/
theorem empty_selection_short_circuit
    (detect detect' : Str → List Detection) (repl repl' : Str) (t : Option Str)
    (ht : pyTruthy t = true) :
    appRun detect repl t [] = appRun detect' repl' t [] ∧
    (appRun detect repl t []).1 = UIOutcome.selectEntitiesPrompt ∧
    (appRun detect repl t []).2 = none := by
  have h1 : (pyTruthy t && !(List.isEmpty ([] : List Str))) = false := by
    simp [List.isEmpty]
  have h2 : (pyTruthy t && List.isEmpty ([] : List Str)) = true := by
    simp [List.isEmpty, ht]
  constructor
  · simp only [appRun, h1, h2]
    rfl
  constructor
  · simp only [appRun, h1, h2]
    simp
  · simp only [appRun, h1, h2]
    simp

/-- C9 witness: the short-circuit at a concrete non-empty text, for two
different detectors and replacements. -/
theorem empty_selection_short_circuit_witness :
    appRun (fun _ => []) ("R".toList) (some ("hi".toList)) [] =
      appRun (fun s => [⟨"PERSON".toList, 0, s.length, 1⟩]) ("S".toList)
        (some ("hi".toList)) [] ∧
    (appRun (fun _ => []) ("R".toList) (some ("hi".toList)) []).1 =
      UIOutcome.selectEntitiesPrompt ∧
    (appRun (fun _ => []) ("R".toList) (some ("hi".toList)) []).2 = none :=
  empty_selection_short_circuit (fun _ => [])
    (fun s => [⟨"PERSON".toList, 0, s.length, 1⟩])
    ("R".toList) ("S".toList) (some ("hi".toList)) (by decide)

/-- A cell indexed by `get? i = some (some v)` occupies a non-null slot. -/
theorem mem_nonnullPositions (cells : List (Option Str)) (i : Nat) (v : Str)
    (h : cells.get? i = some (some v)) : i ∈ nonnullPositions cells := by
  induction cells generalizing i with
  | nil => cases h
  | cons c cs ih =>
    cases i with
    | zero =>
      have hc : c = some v := by simpa using h
      subst hc
      simp [nonnullPositions]
    | succ i' =>
      have h' : cs.get? i' = some (some v) := by simpa using h
      have hmem := ih i' h'
      cases hcs : c.isSome with
      | true =>
        simp only [nonnullPositions, hcs, if_pos]
        exact List.mem_cons_of_mem _ (List.mem_map_of_mem (· + 1) hmem)
      | false =>
        simp only [nonnullPositions, hcs]
        exact List.mem_map_of_mem (· + 1) hmem

/-- Stripping an all-whitespace string leaves nothing. -/
theorem pyStrip_all_space (w : Str) (h : ∀ c ∈ w, isSpaceChar c = true) :
    pyStrip w = [] := by
  have h1 : w.dropWhile isSpaceChar = [] := List.dropWhile_eq_nil_iff.mpr h
  simp [pyStrip, h1]

/-- Dropping at least one element of a list under `filter` shortens it. -/
theorem filter_length_lt {α : Type} (p : α → Bool) (l : List α) (a : α)
    (ha : a ∈ l) (hp : p a = false) : (l.filter p).length < l.length := by
  induction l with
  | nil => cases ha
  | cons b bs ih =>
    cases hb : p b with
    | true =>
      simp only [List.filter_cons, hb, List.length_cons]
      have hab : a ∈ bs := by
        cases List.mem_cons.mp ha with
        | inl heq => exact absurd (heq ▸ hp) (by simp [hb])
        | inr hm => exact hm
      simpa using Nat.succ_lt_succ (ih hab)
    | false =>
      simp only [List.filter_cons, hb, List.length_cons]
      exact Nat.lt_succ_of_le (List.length_filter_le p bs)

/-- C10: a non-null but whitespace-only cell is joined into the analysis
text and occupies a redacted-column slot, yet yields no Label Studio
task; consequently the exported task count is strictly below the number
of rows contributing to the joined text. -/
theorem whitespace_row_no_task (cells : List (Option Str)) (i : Nat) (w : Str)
    (hc : cells.get? i = some (some w))
    (hsp : ∀ c ∈ w, isSpaceChar c = true) :
    w ∈ cells.filterMap id ∧
    i ∈ nonnullPositions cells ∧
    w ∉ lsTaskRows cells ∧
    (lsTaskRows cells).length < (cells.filterMap id).length := by
  have hmem : some w ∈ cells := by
    have := List.get?_mem hc
    exact this
  have hfm : w ∈ cells.filterMap id := List.mem_filterMap.mpr ⟨some w, hmem, rfl⟩
  have hstrip : pyStrip w = [] := pyStrip_all_space w hsp
  have hpred : (!(w.isEmpty || (pyStrip w).isEmpty)) = false := by
    simp [hstrip]
  refine ⟨hfm, mem_nonnullPositions cells i w hc, ?_, ?_⟩
  · intro habs
    have := (List.mem_filter.mp habs).2
    rw [hpred] at this
    cases this
  · exact filter_length_lt _ _ w hfm hpred

/-- C10 witness: the whitespace-only row at index 1. -/
theorem whitespace_row_no_task_witness :
    [' '] ∈ wsCells.filterMap id ∧
    1 ∈ nonnullPositions wsCells ∧
    [' '] ∉ lsTaskRows wsCells ∧
    (lsTaskRows wsCells).length < (wsCells.filterMap id).length :=
  whitespace_row_no_task wsCells 1 [' '] (by decide) (by decide)

/-- The redaction output draws its characters from the text and the
replacement. -/
theorem redact_mem (repl : Str) (s : Str) (ds : List Detection) (c : Char)
    (h : c ∈ redact repl s ds) : c ∈ s ∨ c ∈ repl := by
  induction s, ds using redact.induct repl with
  | case1 text =>
    rw [redact] at h
    exact Or.inl h
  | case2 text d rest ih =>
    rw [redact] at h
    rcases List.mem_append.mp h with h12 | h3
    · rcases List.mem_append.mp h12 with h1 | h2
      · exact Or.inl (List.take_subset _ _ h1)
      · exact Or.inr h2
    · rcases ih h3 with hs | hr
      · exact Or.inl (List.drop_subset _ _ hs)
      · exact Or.inr hr

/-- Redacting a non-empty text with a non-empty replacement never
produces the empty string. -/
theorem redact_ne_nil (repl s : Str) (ds : List Detection)
    (hr : repl ≠ []) (hs : s ≠ []) : redact repl s ds ≠ [] := by
  cases ds with
  | nil =>
    rw [redact]
    exact hs
  | cons d rest =>
    rw [redact]
    intro h
    exact hr (List.append_eq_nil.mp ((List.append_eq_nil.mp h).1)).2

/-- No well-formed detection fits in an empty segment. -/
theorem detsOK_zero (ds : List Detection) (h : DetsOK 0 ds) : ds = [] := by
  cases ds with
  | nil => rfl
  | cons d rest =>
    have hd := h.1 d (List.mem_cons_self _ _)
    omega

/-- Redaction distributes over a leading separator when every detection
lies strictly beyond it. -/
theorem redact_append_all_after (repl : Str) (seg rest : Str) (ds : List Detection)
    (h : ∀ d ∈ ds, seg.length + 1 ≤ d.start ∧ d.start < d.«end») :
    redact repl (seg ++ '\n' :: rest) ds =
      seg ++ '\n' :: redact repl rest (ds.map (shiftDet (seg.length + 1))) := by
  cases ds with
  | nil => simp [redact]
  | cons d ds' =>
    obtain ⟨hds, hlt⟩ := h d (List.mem_cons_self _ _)
    have htake : (seg ++ '\n' :: rest).take d.start
        = seg ++ '\n' :: rest.take (d.start - (seg.length + 1)) := by
      rw [List.take_append_eq_append_take, List.take_of_length_le (by omega)]
      congr 1
      have hrw : d.start - seg.length = (d.start - (seg.length + 1)) + 1 := by omega
      rw [hrw, List.take_succ_cons]
    have hdrop : (seg ++ '\n' :: rest).drop d.«end»
        = rest.drop (d.«end» - (seg.length + 1)) := by
      rw [List.drop_append_eq_append_drop, List.drop_eq_nil_of_le (by omega),
        List.nil_append]
      have hrw : d.«end» - seg.length = (d.«end» - (seg.length + 1)) + 1 := by omega
      rw [hrw, List.drop_succ_cons]
    have hmap : ds'.map (shiftDet d.«end») =
        (ds'.map (shiftDet (seg.length + 1))).map
          (shiftDet (d.«end» - (seg.length + 1))) := by
      rw [List.map_map]
      apply List.map_congr_left
      intro e _
      simp only [shiftDet, Function.comp_apply, Detection.mk.injEq, true_and, and_true]
      omega
    simp only [redact, List.map_cons]
    rw [htake, hdrop, hmap]
    simp only [shiftDet]
    simp [List.append_assoc]

/-- Redaction distributes over a separator that no detection covers:
detections within the left segment act there, the ones beyond the
separator act (shifted) on the right part. -/
theorem redact_append_split_len (repl : Str) :
    ∀ (n : Nat) (dets1 dets2 : List Detection) (seg rest : Str),
      dets1.length ≤ n →
      (∀ d ∈ dets1, d.start < d.«end» ∧ d.«end» ≤ seg.length) →
      List.Pairwise (fun a b => a.«end» ≤ b.start) dets1 →
      (∀ d ∈ dets2, seg.length + 1 ≤ d.start ∧ d.start < d.«end») →
      redact repl (seg ++ '\n' :: rest) (dets1 ++ dets2) =
        redact repl seg dets1 ++ '\n' ::
          redact repl rest (dets2.map (shiftDet (seg.length + 1))) := by
  intro n
  induction n with
  | zero =>
    intro dets1 dets2 seg rest hlen h1 hp h2
    have hnil : dets1 = [] := List.eq_nil_of_length_eq_zero (Nat.le_zero.mp hlen)
    subst hnil
    simpa [redact] using redact_append_all_after repl seg rest dets2 h2
  | succ n ihn =>
    intro dets1 dets2 seg rest hlen h1 hp h2
    cases dets1 with
    | nil => simpa [redact] using redact_append_all_after repl seg rest dets2 h2
    | cons d ds1 =>
      obtain ⟨hdlt, hdle⟩ := h1 d (List.mem_cons_self _ _)
      have hcross : ∀ e ∈ ds1, d.«end» ≤ e.start := (List.pairwise_cons.mp hp).1
      have hp1 : List.Pairwise (fun a b => a.«end» ≤ b.start) ds1 :=
        (List.pairwise_cons.mp hp).2
      have htake : (seg ++ '\n' :: rest).take d.start = seg.take d.start := by
        rw [List.take_append_eq_append_take]
        have hz : d.start - seg.length = 0 := by omega
        rw [hz]
        simp
      have hdrop : (seg ++ '\n' :: rest).drop d.«end» = seg.drop d.«end» ++ '\n' :: rest := by
        rw [List.drop_append_eq_append_drop]
        have hz : d.«end» - seg.length = 0 := by omega
        rw [hz]
        simp
      have hih := ihn (ds1.map (shiftDet d.«end»)) (dets2.map (shiftDet d.«end»))
        (seg.drop d.«end») rest
        (by simpa using Nat.le_of_succ_le_succ hlen)
        (by
          intro e' he'
          obtain ⟨e, he, rfl⟩ := List.mem_map.mp he'
          have hb := h1 e (List.mem_cons_of_mem _ he)
          have hcr := hcross e he
          simp only [shiftDet, List.length_drop]
          omega)
        (List.Pairwise.map _ (fun a b hab => by
          simp only [shiftDet]
          omega) hp1)
        (by
          intro e' he'
          obtain ⟨e, he, rfl⟩ := List.mem_map.mp he'
          have hb := h2 e he
          simp only [shiftDet, List.length_drop]
          omega)
      have hmap2 : (dets2.map (shiftDet d.«end»)).map
            (shiftDet ((seg.drop d.«end»).length + 1)) =
          dets2.map (shiftDet (seg.length + 1)) := by
        rw [List.map_map]
        apply List.map_congr_left
        intro e _
        simp only [shiftDet, Function.comp_apply, Detection.mk.injEq, true_and, and_true,
          List.length_drop]
        omega
      rw [hmap2] at hih
      simp only [List.cons_append, redact, List.map_append]
      rw [htake, hdrop, hih]
      simp [List.append_assoc]

/-- Sorted, non-overlapping detections that avoid position `L` split
into the ones ending by `L` followed by the ones starting after it. -/
theorem dets_chunk (L : Nat) (dets : List Detection)
    (hb : ∀ d ∈ dets, d.start < d.«end»)
    (hp : List.Pairwise (fun a b => a.«end» ≤ b.start) dets)
    (hnc : ∀ d ∈ dets, ¬(d.start ≤ L ∧ L < d.«end»)) :
    ∃ t1 t2, dets = t1 ++ t2 ∧ (∀ d ∈ t1, d.«end» ≤ L) ∧
      (∀ d ∈ t2, L + 1 ≤ d.start) := by
  induction dets with
  | nil => exact ⟨[], [], rfl, by simp, by simp⟩
  | cons d rest ih =>
    have hd := hb d (List.mem_cons_self _ _)
    have hnd := hnc d (List.mem_cons_self _ _)
    by_cases hcase : d.«end» ≤ L
    · obtain ⟨t1, t2, heq, ht1, ht2⟩ := ih
        (fun e he => hb e (List.mem_cons_of_mem _ he))
        (List.pairwise_cons.mp hp).2
        (fun e he => hnc e (List.mem_cons_of_mem _ he))
      refine ⟨d :: t1, t2, by rw [heq, List.cons_append], ?_, ht2⟩
      intro e he
      rcases List.mem_cons.mp he with rfl | hm
      · exact hcase
      · exact ht1 e hm
    · have hstart : L + 1 ≤ d.start := by omega
      refine ⟨[], d :: rest, rfl, by simp, ?_⟩
      intro e he
      rcases List.mem_cons.mp he with rfl | hm
      · exact hstart
      · have := (List.pairwise_cons.mp hp).1 e hm
        omega

/-- Unfolding the intercalation of at least two segments. -/
theorem intercalate_cons₂ (x : Char) (a b : Str) (l : List Str) :
    List.intercalate [x] (a :: b :: l) = a ++ x :: List.intercalate [x] (b :: l) := by
  simp [List.intercalate, List.intersperse]

/-- Splitting the redaction of a joined text recovers one redacted part
per segment, each being its segment redacted by that segment's own
well-formed detections. -/
theorem split_redact (repl : Str) (hrepl : '\n' ∉ repl) :
    ∀ (segs : List Str) (dets : List Detection), segs ≠ [] →
      (∀ s ∈ segs, '\n' ∉ s) →
      DetsOK (List.intercalate ['\n'] segs).length dets →
      (∀ d ∈ dets, ∀ p ∈ sepPositions segs, ¬(d.start ≤ p ∧ p < d.«end»)) →
      List.Forall₂ (fun s r => ∃ ds, DetsOK s.length ds ∧ r = redact repl s ds)
        segs (pySplit '\n' (redact repl (List.intercalate ['\n'] segs) dets)) := by
  intro segs
  induction segs with
  | nil =>
    intro dets hne _ _ _
    exact absurd rfl hne
  | cons s tail ih =>
    intro dets _ hnl hOK hnc
    cases tail with
    | nil =>
      have hint : List.intercalate ['\n'] [s] = s := by simp [List.intercalate]
      rw [hint] at hOK ⊢
      have hnos : '\n' ∉ redact repl s dets := by
        intro hmem
        rcases redact_mem repl s dets '\n' hmem with hcs | hcr
        · exact hnl s (List.mem_cons_self _ _) hcs
        · exact hrepl hcr
      rw [pySplit_no_sep '\n' _ hnos]
      exact List.Forall₂.cons ⟨dets, hOK, rfl⟩ List.Forall₂.nil
    | cons s2 tail2 =>
      obtain ⟨hbounds, hpair⟩ := hOK
      have hint := intercalate_cons₂ '\n' s s2 tail2
      have hlen : (List.intercalate ['\n'] (s :: s2 :: tail2)).length
          = s.length + 1 + (List.intercalate ['\n'] (s2 :: tail2)).length := by
        rw [hint]
        simp only [List.length_append, List.length_cons]
        omega
      have hsep0 : s.length ∈ sepPositions (s :: s2 :: tail2) := by
        simp [sepPositions]
      obtain ⟨t1, t2, heq, ht1, ht2⟩ := dets_chunk s.length dets
        (fun d hd => (hbounds d hd).1) hpair
        (fun d hd => hnc d hd s.length hsep0)
      subst heq
      obtain ⟨hp1, hp2, _⟩ := List.pairwise_append.mp hpair
      have h1B : ∀ d ∈ t1, d.start < d.«end» ∧ d.«end» ≤ s.length :=
        fun d hd => ⟨(hbounds d (List.mem_append_left _ hd)).1, ht1 d hd⟩
      have h2B : ∀ d ∈ t2, s.length + 1 ≤ d.start ∧ d.start < d.«end» :=
        fun d hd => ⟨ht2 d hd, (hbounds d (List.mem_append_right _ hd)).1⟩
      rw [hint, redact_append_split_len repl t1.length t1 t2 s
        (List.intercalate ['\n'] (s2 :: tail2)) le_rfl h1B hp1 h2B]
      have hnos : '\n' ∉ redact repl s t1 := by
        intro hmem
        rcases redact_mem repl s t1 '\n' hmem with hcs | hcr
        · exact hnl s (List.mem_cons_self _ _) hcs
        · exact hrepl hcr
      rw [pySplit_append_sep '\n' _ _ hnos]
      refine List.Forall₂.cons ⟨t1, ⟨h1B, hp1⟩, rfl⟩ ?_
      refine ih (t2.map (shiftDet (s.length + 1))) (by simp)
        (fun t ht => hnl t (List.mem_cons_of_mem _ ht)) ⟨?_, ?_⟩ ?_
      · intro e' he'
        obtain ⟨e, he, rfl⟩ := List.mem_map.mp he'
        have hb := hbounds e (List.mem_append_right _ he)
        have hs := ht2 e he
        simp only [shiftDet]
        omega
      · exact List.Pairwise.map _ (fun a b hab => by simp only [shiftDet]; omega) hp2
      · intro e' he' p' hp'
        obtain ⟨e, he, rfl⟩ := List.mem_map.mp he'
        have hmemp : p' + (s.length + 1) ∈ sepPositions (s :: s2 :: tail2) := by
          simp only [sepPositions]
          exact List.mem_cons_of_mem _ (List.mem_map.mpr ⟨p', hp', rfl⟩)
        have horig := hnc e (List.mem_append_right _ he) _ hmemp
        have hs := ht2 e he
        simp only [shiftDet]
        omega

/-- C5: tabular round trip — joining the non-null cells, redacting the
joined text with well-formed detections that stay inside single rows,
and splitting back yields (with no warning and no error) a full-length
column holding the empty placeholder at every null or empty-string row
and a non-empty redacted string at every row that had text, whenever no
cell embeds the newline separator and the replacement text is non-empty
and newline-free. -/
theorem tabular_round_trip (cells : List (Option Str)) (dets : List Detection) (repl : Str)
    (hne : cells.filterMap id ≠ [])
    (hcell : ∀ v ∈ cells.filterMap id, '\n' ∉ v)
    (hrepl : repl ≠ []) (hreplsep : '\n' ∉ repl)
    (hOK : DetsOK (joinedText cells).length dets)
    (hnc : ∀ d ∈ dets, ∀ p ∈ sepPositions (cells.filterMap id),
      ¬(d.start ≤ p ∧ p < d.«end»)) :
    (buildRedactedColumn cells (redact repl (joinedText cells) dets)).1 = false ∧
    ∃ out, (buildRedactedColumn cells (redact repl (joinedText cells) dets)).2
        = Except.ok out ∧
      List.Forall₂ (fun c o =>
          ((c = none ∨ c = some []) → o = some []) ∧
          ∀ v, c = some v → v ≠ [] → ∃ w, o = some w ∧ w ≠ [])
        cells out := by
  have hsplit : List.Forall₂ (fun s r => ∃ ds, DetsOK s.length ds ∧ r = redact repl s ds)
      (cells.filterMap id) (pySplit '\n' (redact repl (joinedText cells) dets)) := by
    rw [joinedText]
    exact split_redact repl hreplsep (cells.filterMap id) dets hne hcell
      (by rw [joinedText] at hOK; exact hOK) hnc
  have hlens : (pySplit '\n' (redact repl (joinedText cells) dets)).length
      = (cells.filterMap id).length := hsplit.length_eq.symm
  have hposlen : (nonnullPositions cells).length
      = (pySplit '\n' (redact repl (joinedText cells) dets)).length := by
    rw [nonnullPositions_length, hlens]
  constructor
  · simp only [buildRedactedColumn]
    rw [decide_eq_false_iff_not]
    intro hcontra
    exact hcontra hposlen.symm
  · refine ⟨rebuildRows cells ((pySplit '\n' (redact repl (joinedText cells) dets)).take
        (nonnullPositions cells).length),
      buildRedactedColumn_ok cells _ (Nat.le_of_eq hposlen), ?_⟩
    have htake : (pySplit '\n' (redact repl (joinedText cells) dets)).take
        (nonnullPositions cells).length
        = pySplit '\n' (redact repl (joinedText cells) dets) :=
      List.take_of_length_le (Nat.le_of_eq hposlen.symm)
    rw [htake]
    have hrel := rebuildRows_rel (fun s r => ∃ ds, DetsOK s.length ds ∧ r = redact repl s ds)
      cells (pySplit '\n' (redact repl (joinedText cells) dets)) hsplit
    refine hrel.imp (fun c o hco => ⟨?_, ?_⟩)
    · intro hc
      rcases hc with rfl | rfl
      · exact hco.1 rfl
      · obtain ⟨p, hop, ds, hds, rfl⟩ := hco.2 [] rfl
        have hdnil : ds = [] := detsOK_zero ds (by simpa using hds)
        subst hdnil
        simpa [redact] using hop
    · intro v hv hvne
      obtain ⟨p, hop, ds, _, rfl⟩ := hco.2 v hv
      exact ⟨redact repl v ds, hop, redact_ne_nil repl v ds hrepl hvne⟩

/-- C5 witness: the round trip at the spec's own three-row example. -/
theorem tabular_round_trip_witness :
    (buildRedactedColumn rtCells (redact rtRepl (joinedText rtCells) rtDets)).1 = false ∧
    ∃ out, (buildRedactedColumn rtCells (redact rtRepl (joinedText rtCells) rtDets)).2
        = Except.ok out ∧
      List.Forall₂ (fun c o =>
          ((c = none ∨ c = some []) → o = some []) ∧
          ∀ v, c = some v → v ≠ [] → ∃ w, o = some w ∧ w ≠ [])
        rtCells out :=
  tabular_round_trip rtCells rtDets rtRepl (by decide) (by decide) (by decide)
    (by decide) (by decide) (by decide)

/-- C8: the filter is idempotent and order-preserving: filtering twice
equals filtering once, and the output is a sublist (hence subsequence in
original order) of the input. -/
theorem filter_idempotent_ordered (text : Str) (D : List Detection) :
    filterResults text (filterResults text D) = filterResults text D ∧
    List.Sublist (filterResults text D) D := by
  constructor
  · simp only [filterResults, List.filter_filter]
    apply List.filter_congr
    intro d _
    rw [Bool.and_self]
  · exact List.filter_sublist D

end TranscriptAnonymizer
